import Mathlib

/-!
Verification of the rpaas Consul configuration-store manager
(`rpaas/consul_manager.py`).

The Consul key-value store is modelled as an association list from string
keys to string values (`KV`).  The methods of `ConsulManager` become pure
functions from a store to a store (writes) or to values (reads); a raised
exception is modelled with `RpaasError`.  Python string primitives used by
the source (`str.replace`, `str.strip`, `str.split`, `str.join`, the `in`
substring test) are embedded as executable functions on `List Char`.

The enumeration order of `kv.get(..., recurse=True)` is modelled as store
order; no theorem below depends on the enumeration order of the store.
-/

set_option autoImplicit false

namespace Rpaas

/-! ## Python string primitives on character lists -/

/-- Boolean prefix test on character lists. -/
def isPrefixL : List Char → List Char → Bool
  | [], _ => true
  | _ :: _, [] => false
  | a :: as, b :: bs => a == b && isPrefixL as bs

/-- Does `pat` occur as a contiguous substring of `s`?  (Python `pat in s`.) -/
def containsPat (s pat : List Char) : Bool :=
  match s with
  | [] => isPrefixL pat []
  | _ :: t => isPrefixL pat s || containsPat t pat

/-- Does `pat` occur in `u ++ pat` starting strictly before position `u.length`? -/
def occursBefore (u pat : List Char) : Bool :=
  match u with
  | [] => false
  | _ :: t => isPrefixL pat (u ++ pat) || occursBefore t pat

/-- Left-to-right scanning worker for `replaceAll`.  The fuel argument makes
the recursion structural; it is always instantiated with at least the length
of the scanned list, which keeps it from running out. -/
def replaceAllFuel (pat rep : List Char) : Nat → List Char → List Char
  | 0, s => s
  | _ + 1, [] => []
  | fuel + 1, c :: cs =>
    if isPrefixL pat (c :: cs) then
      rep ++ replaceAllFuel pat rep fuel (cs.drop (pat.length - 1))
    else c :: replaceAllFuel pat rep fuel cs

/-- Python `s.replace(pat, rep)`: left-to-right replacement of every
non-overlapping occurrence.  (Only ever used with a non-empty pattern in the
source; the empty pattern is mapped to the identity.) -/
def replaceAll (s pat rep : List Char) : List Char :=
  match pat with
  | [] => s
  | _ :: _ => replaceAllFuel pat rep s.length s

/-- Python `s.split(sep)` for a one-character separator. -/
def splitOnChar (sep : Char) : List Char → List (List Char)
  | [] => [[]]
  | c :: cs =>
    let r := splitOnChar sep cs
    if c == sep then [] :: r
    else
      match r with
      | [] => [[c]]
      | h :: t => (c :: h) :: t

/-- Python `sep.join(parts)` for a one-character separator. -/
def joinWith (sep : Char) : List (List Char) → List Char
  | [] => []
  | x :: xs =>
    match xs with
    | [] => x
    | _ :: _ => x ++ sep :: joinWith sep xs

/-- Python `s.strip()`: drop whitespace from both ends. -/
def stripChars (l : List Char) : List Char :=
  ((l.dropWhile Char.isWhitespace).reverse.dropWhile Char.isWhitespace).reverse

/-- String-level wrappers. -/
def pyReplace (s pat rep : String) : String :=
  ⟨replaceAll s.data pat.data rep.data⟩

def pyContains (s pat : String) : Bool :=
  containsPat s.data pat.data

def pyStrip (s : String) : String :=
  ⟨stripChars s.data⟩

def pySplit (sep : Char) (s : String) : List String :=
  (splitOnChar sep s.data).map (fun l => ⟨l⟩)

def pyJoin (sep : Char) (l : List String) : String :=
  ⟨joinWith sep (l.map String.data)⟩

/-- Lexicographic comparison of character lists by code point, matching the
order Python string comparison uses. -/
def lexLe : List Char → List Char → Bool
  | [], _ => true
  | _ :: _, [] => false
  | a :: as, b :: bs => if a = b then lexLe as bs else decide (a.toNat < b.toNat)

/-- Python `sorted([x, y])` on two strings. -/
def sorted2 (x y : String) : List String :=
  if lexLe x.data y.data then [x, y] else [y, x]

/-! ## The Consul key-value store -/

/-- The key-value store: an association of full key paths to values. -/
abbrev KV : Type := List (String × String)

/-- `kv.get(key)[1]`: `none` models an absent key. -/
def kvGet : KV → String → Option String
  | [], _ => none
  | (k, v) :: t, q => if k = q then some v else kvGet t q

def kvHasKey : KV → String → Bool
  | [], _ => false
  | (k, _) :: t, q => k = q || kvHasKey t q

/-- `kv.put(key, value)`: overwrite in place, or append a fresh binding. -/
def kvPut (st : KV) (q v : String) : KV :=
  if kvHasKey st q then st.map (fun p => if p.1 = q then (q, v) else p)
  else st ++ [(q, v)]

/-- `kv.delete(key)`. -/
def kvDelete (st : KV) (q : String) : KV :=
  st.filter (fun p => !(p.1 = q : Bool))

/-- `kv.get(key, recurse=True)`: every binding whose key extends `q`. -/
def kvGetRecurse (st : KV) (q : String) : KV :=
  st.filter (fun p => isPrefixL q.data p.1.data)

/-! ## ConsulManager: keys and framing -/

/-- The exceptions raised by `ConsulManager`. -/
inductive RpaasError where
  | instanceAlreadySwapped
  | certificateNotFound
deriving DecidableEq

/-- `ConsulManager._key(instance_name, suffix)`. -/
def consulKey (svc inst : String) (suffix : Option String) : String :=
  match suffix with
  | some s => svc ++ "/" ++ inst ++ "/" ++ s
  | none => svc ++ "/" ++ inst

/-- The begin sentinel line of `_set_header_footer` (with its trailing newline). -/
def beginBlock (block_name : String) : String :=
  "## Begin custom RpaaS " ++ block_name ++ " block ##\n"

/-- The end sentinel line of `_set_header_footer`. -/
def endBlock (block_name : String) : String :=
  "## End custom RpaaS " ++ block_name ++ " block ##"

/-- `ConsulManager._set_header_footer(content, block_name, remove)`.
`content = none` models Python `None`; the `remove=True` path is only ever
called on an actual string. -/
def set_header_footer (content : Option String) (block_name : String) (remove : Bool) : String :=
  if remove then
    pyStrip (pyReplace (pyReplace (content.getD "") (beginBlock block_name) "")
      (endBlock block_name) "")
  else
    match content with
    | some c =>
      if c = "" then beginBlock block_name ++ endBlock block_name
      else beginBlock block_name ++ pyStrip c ++ "\n" ++ endBlock block_name
    | none => beginBlock block_name ++ endBlock block_name

/-! ## Upstream set management -/

/-- `ConsulManager._upstream_key`. -/
def upstream_key (svc inst upstream_name : String) : String :=
  consulKey svc inst (some ("upstream/" ++ upstream_name))

/-- Insertion into a Python set modelled as a duplicate-free list. -/
def setAdd (l : List String) (s : String) : List String :=
  if s ∈ l then l else l ++ [s]

def setUnion (l m : List String) : List String :=
  m.foldl setAdd l

def setDiff (l m : List String) : List String :=
  l.filter (fun x => !(x ∈ m : Bool))

/-- `ConsulManager.list_upstream`: the stored comma-joined set, unframed. -/
def list_upstream (svc : String) (st : KV) (inst upstream_name : String) : List String :=
  match kvGet st (upstream_key svc inst upstream_name) with
  | some v =>
    let s := set_header_footer (some v) "upstream" true
    if s = "" then [] else (pySplit ',' s).dedup
  | none => []

/-- `ConsulManager._save_upstream`. -/
def save_upstream (svc : String) (st : KV) (inst upstream_name : String)
    (servers : List String) : KV :=
  kvPut st (upstream_key svc inst upstream_name)
    (set_header_footer (some (pyJoin ',' servers)) "upstream" false)

/-- `ConsulManager._remove_upstream`: writes the empty sentinel frame. -/
def remove_upstream (svc : String) (st : KV) (inst upstream_name : String) : KV :=
  kvPut st (upstream_key svc inst upstream_name)
    (set_header_footer none "upstream" false)

/-- The `server` argument of `add_server_upstream` / `remove_server_upstream`:
either a single address (Python `str` or `None`) or a batch (`list`). -/
inductive ServerArg where
  | one : Option String → ServerArg
  | many : List String → ServerArg
deriving DecidableEq

/-- Python truthiness of the `server` argument. -/
def serverTruthy : ServerArg → Bool
  | .one none => false
  | .one (some s) => !(s = "" : Bool)
  | .many l => !(l = [] : Bool)

/-- The remainder of `s` after the first occurrence of `pat`, if any. -/
def afterPat (pat : List Char) : List Char → Option (List Char)
  | [] => if isPrefixL pat [] then some [] else none
  | c :: cs =>
    if isPrefixL pat (c :: cs) then some ((c :: cs).drop pat.length)
    else afterPat pat cs

/-- Modelled from the spec: `host_from_destination` lives in `rpaas/misc.py`,
which is not under `src/`.  Per the spec it extracts the host and the optional
port from a URL-or-bare-host string, the port being absent when not given; a
missing destination yields neither host nor port. -/
def host_from_destination (destination : Option String) : Option String × Option String :=
  match destination with
  | none => (none, none)
  | some d =>
    let rest :=
      match afterPat "://".data d.data with
      | some r => r
      | none => d.data
    match splitOnChar ':' rest with
    | [h] => (if h = [] then none else some ⟨h⟩, none)
    | h :: p :: _ => (if h = [] then none else some ⟨h⟩, if p = [] then none else some ⟨p⟩)
    | [] => (none, none)

/-- `":".join(map(str, filter(None, host_from_destination(server))))`. -/
def normalize_server (server : Option String) : String :=
  let hp := host_from_destination server
  pyJoin ':' (List.filterMap id [hp.1, hp.2])

/-- `ConsulManager.add_server_upstream`. -/
def add_server_upstream (svc : String) (st : KV) (inst upstream_name : String)
    (server : ServerArg) : KV :=
  if serverTruthy server = false then st
  else
    let servers := list_upstream svc st inst upstream_name
    let servers :=
      match server with
      | .many l => setUnion servers (l.map (fun s => normalize_server (some s)))
      | .one s => setAdd servers (normalize_server s)
    save_upstream svc st inst upstream_name servers

/-- The server set computed inside `remove_server_upstream` before the
empty test. -/
def remove_server_upstream_set (svc : String) (st : KV) (inst upstream_name : String)
    (server : ServerArg) : List String :=
  let servers := list_upstream svc st inst upstream_name
  match server with
  | .many l => setDiff servers (l.map (fun s => normalize_server (some s)))
  | .one s =>
    let sn := normalize_server s
    if sn ∈ servers then servers.erase sn else servers

/-- `ConsulManager.remove_server_upstream` (note: no falsy-server guard). -/
def remove_server_upstream (svc : String) (st : KV) (inst upstream_name : String)
    (server : ServerArg) : KV :=
  let servers := remove_server_upstream_set svc st inst upstream_name server
  if servers.length < 1 then remove_upstream svc st inst upstream_name
  else save_upstream svc st inst upstream_name servers

/-! ## Swap state machine -/

/-- `ConsulManager.check_swap_state`. -/
def check_swap_state (svc : String) (st : KV) (src_instance dst_instance : String) : Bool :=
  match kvGet st (consulKey svc src_instance (some "swap")),
        kvGet st (consulKey svc dst_instance (some "swap")) with
  | none, none => true
  | none, some _ => false
  | some _, none => false
  | some x, some y =>
    if sorted2 x y ≠ sorted2 src_instance dst_instance then false else true

/-- `ConsulManager.swap_instances`.  The first component is the raised
exception, if any; the second is the store after the call (raising happens
before any write, so the store is returned unchanged in that case). -/
def swap_instances (svc : String) (st : KV) (src_instance dst_instance : String) :
    Option RpaasError × KV :=
  if check_swap_state svc st src_instance dst_instance then
    match kvGet st (consulKey svc src_instance (some "swap")) with
    | none =>
      (none, kvPut (kvPut st (consulKey svc src_instance (some "swap")) dst_instance)
        (consulKey svc dst_instance (some "swap")) src_instance)
    | some v =>
      if v = dst_instance then
        (none, kvDelete (kvDelete st (consulKey svc src_instance (some "swap")))
          (consulKey svc dst_instance (some "swap")))
      else
        (none, kvPut (kvPut st (consulKey svc src_instance (some "swap")) dst_instance)
          (consulKey svc dst_instance (some "swap")) src_instance)
  else (some RpaasError.instanceAlreadySwapped, st)

/-- Both swap pointers after two consecutive successful `swap_instances`
calls (`none` when either call raised). -/
def swap_twice_pointers (svc : String) (st : KV) (a b c d : String) :
    Option (Option String × Option String) :=
  match swap_instances svc st a b with
  | (some _, _) => none
  | (none, st1) =>
    match swap_instances svc st1 c d with
    | (some _, _) => none
    | (none, st2) =>
      some (kvGet st2 (consulKey svc a (some "swap")), kvGet st2 (consulKey svc b (some "swap")))

/-- The Inconsistent swap state as the specification words it: exactly one of
the two swap pointers set, or both set but not mutually referring to each
other. -/
def InconsistentSwapState (svc : String) (st : KV) (a b : String) : Prop :=
  let pa := kvGet st (consulKey svc a (some "swap"))
  let pb := kvGet st (consulKey svc b (some "swap"))
  (pa = none ∧ pb ≠ none) ∨ (pa ≠ none ∧ pb = none) ∨
    (pa ≠ none ∧ pb ≠ none ∧ ¬(pa = some b ∧ pb = some a))

instance (svc : String) (st : KV) (a b : String) :
    Decidable (InconsistentSwapState svc st a b) := by
  unfold InconsistentSwapState
  infer_instance

/-! ## ACL registry -/

/-- `ConsulManager._normalize_acl_src` (self-inverse `/` ↔ `_` substitution;
falsy input yields Python `None`). -/
def normalize_acl_src (src : Option String) : Option String :=
  match src with
  | none => none
  | some s =>
    if s = "" then none
    else if pyContains s "_" then some (pyReplace s "_" "/")
    else some (pyReplace s "/" "_")

/-- `ConsulManager._acl_key`. -/
def acl_key (svc inst : String) (src : Option String) : String :=
  match src with
  | some s => if s = "" then consulKey svc inst (some "acl")
              else consulKey svc inst (some ("acl/" ++ s))
  | none => consulKey svc inst (some "acl")

/-- `key.split('/')[-1]`. -/
def lastSeg (k : String) : String :=
  ⟨(splitOnChar '/' k.data).getLastD []⟩

/-- `ConsulManager.find_acl_network`: each entry is the decoded source (a
Python string or `None`) with its comma-split destination list. -/
def find_acl_network (svc : String) (st : KV) (inst : String) (src : Option String) :
    List (Option String × List String) :=
  let srcN := normalize_acl_src src
  (kvGetRecurse st (acl_key svc inst srcN)).map
    (fun p => (normalize_acl_src (some (lastSeg p.1)), pySplit ',' p.2))

/-- `ConsulManager.store_acl_network`. -/
def store_acl_network (svc : String) (st : KV) (inst src dst : String) : KV :=
  let acls := find_acl_network svc st inst (some src)
  let dests :=
    match acls with
    | [] => [dst]
    | e :: _ => setAdd e.2.dedup dst
  kvPut st (acl_key svc inst (normalize_acl_src (some src))) (pyJoin ',' dests)

/-- `find_acl_network` with each destination list viewed as a set. -/
def acl_find_summary (svc : String) (st : KV) (inst src : String) :
    List (Option String × Finset String) :=
  (find_acl_network svc st inst (some src)).map (fun e => (e.1, e.2.toFinset))

/-! ## Certificate store -/

/-- `ConsulManager._ssl_cert_path`. -/
def ssl_cert_path (svc inst key_type : String) (host_id : Option String) : String :=
  match host_id with
  | some h =>
    if h = "" then consulKey svc inst (some "ssl") ++ "/" ++ key_type
    else consulKey svc inst (some ("ssl/" ++ h)) ++ "/" ++ key_type
  | none => consulKey svc inst (some "ssl") ++ "/" ++ key_type

/-- `ConsulManager.get_certificate`: the error models
`CertificateNotFoundError`. -/
def get_certificate (svc : String) (st : KV) (inst : String) (host_id : Option String) :
    Except RpaasError (String × String) :=
  match kvGet st (ssl_cert_path svc inst "cert" host_id),
        kvGet st (ssl_cert_path svc inst "key" host_id) with
  | some c, some k => Except.ok (c, k)
  | _, _ => Except.error RpaasError.certificateNotFound

/-- `ConsulManager.set_certificate`. -/
def set_certificate (svc : String) (st : KV) (inst cert_data key_data : String)
    (host_id : Option String) : KV :=
  kvPut (kvPut st (ssl_cert_path svc inst "cert" host_id) (pyReplace cert_data "\r\n" "\n"))
    (ssl_cert_path svc inst "key" host_id) (pyReplace key_data "\r\n" "\n")

/-- Specification-level CRLF → LF normalization, defined by a direct scan. -/
def lfNormalize : List Char → List Char
  | [] => []
  | [c] => [c]
  | c :: c2 :: t =>
    if c = '\r' ∧ c2 = '\n' then '\n' :: lfNormalize t
    else c :: lfNormalize (c2 :: t)

/-! ## Blocks -/

/-- `ConsulManager._block_key`. -/
def block_key (svc inst : String) (block_name : Option String) : String :=
  match block_name with
  | some b =>
    if b = "" then consulKey svc inst (some "blocks")
    else consulKey svc inst (some ("blocks/" ++ b ++ "/" ++ "ROOT"))
  | none => consulKey svc inst (some "blocks")

/-- `ConsulManager.write_block`. -/
def write_block (svc : String) (st : KV) (inst block_name : String)
    (content : Option String) : KV :=
  kvPut st (block_key svc inst (some block_name)) (set_header_footer content block_name false)

/-- `ConsulManager.remove_block`. -/
def remove_block (svc : String) (st : KV) (inst block_name : String) : KV :=
  write_block svc st inst block_name none

/-- `key.split('/')[-2]`. -/
def secondLastSeg (k : String) : String :=
  ⟨((splitOnChar '/' k.data).dropLast).getLastD []⟩

/-- `ConsulManager.list_blocks`: every stored block whose unframed content is
non-empty, as `(block_name, content)` pairs. -/
def list_blocks (svc : String) (st : KV) (inst : String) (block_name : Option String) :
    List (String × String) :=
  (kvGetRecurse st (block_key svc inst block_name)).filterMap
    (fun p =>
      let name := secondLastSeg p.1
      let v := set_header_footer (some p.2) name true
      if v = "" then none else some (name, v))

/-! ## String plumbing -/

theorem strData_append (a b : String) : (a ++ b).data = a.data ++ b.data :=
  String.data_append a b

theorem strMk_data (s : String) : (⟨s.data⟩ : String) = s :=
  String.ext rfl

theorem strData_nil_iff (s : String) : s.data = [] ↔ s = "" := by
  constructor
  · intro h
    exact String.ext h
  · intro h
    subst h
    rfl

/-! ## Prefix and substring facts -/

theorem isPrefixL_append_self (p t : List Char) : isPrefixL p (p ++ t) = true := by
  induction p with
  | nil => rfl
  | cons a as ih => simp [isPrefixL, ih]

theorem isPrefixL_refl (p : List Char) : isPrefixL p p = true := by
  have h := isPrefixL_append_self p []
  simpa using h

theorem isPrefixL_length_le {p s : List Char} (h : isPrefixL p s = true) :
    p.length ≤ s.length := by
  induction p generalizing s with
  | nil => simp
  | cons a as ih =>
    cases s with
    | nil => simp [isPrefixL] at h
    | cons b bs =>
      simp only [isPrefixL, Bool.and_eq_true] at h
      simpa using ih h.2

theorem containsPat_cons_elim {c : Char} {t pat : List Char}
    (h : containsPat (c :: t) pat = false) :
    isPrefixL pat (c :: t) = false ∧ containsPat t pat = false := by
  simp only [containsPat, Bool.or_eq_false_iff] at h
  exact h

theorem containsPat_of_length_lt {s pat : List Char} (h : s.length < pat.length) :
    containsPat s pat = false := by
  induction s with
  | nil =>
    cases pat with
    | nil => simp at h
    | cons p ps => simp [containsPat, isPrefixL]
  | cons c cs ih =>
    simp only [containsPat, Bool.or_eq_false_iff]
    constructor
    · cases hp : isPrefixL pat (c :: cs) with
      | false => rfl
      | true => exact absurd (isPrefixL_length_le hp) (by omega)
    · exact ih (by simp at h ⊢; omega)

theorem containsPat_singleton_iff (l : List Char) (a : Char) :
    containsPat l [a] = true ↔ a ∈ l := by
  induction l with
  | nil => simp [containsPat, isPrefixL]
  | cons c cs ih =>
    simp only [containsPat, Bool.or_eq_true, ih, List.mem_cons, isPrefixL,
      Bool.and_true, beq_iff_eq]

theorem containsPat_singleton_false_iff (l : List Char) (a : Char) :
    containsPat l [a] = false ↔ a ∉ l := by
  rw [← containsPat_singleton_iff]
  cases containsPat l [a] <;> simp


/-! ## replaceAll facts -/

theorem replaceAllFuel_fuel_irrel (pat rep : List Char) :
    ∀ n m s, s.length ≤ n → s.length ≤ m →
      replaceAllFuel pat rep n s = replaceAllFuel pat rep m s := by
  intro n
  induction n with
  | zero =>
    intro m s hn _
    have hs : s = [] := List.length_eq_zero.mp (Nat.le_zero.mp hn)
    subst hs
    cases m <;> rfl
  | succ n ih =>
    intro m s hn hm
    cases s with
    | nil => cases m <;> rfl
    | cons c cs =>
      cases m with
      | zero => simp at hm
      | succ m2 =>
        rw [replaceAllFuel, replaceAllFuel]
        simp only [List.length_cons] at hn hm
        cases hp : isPrefixL pat (c :: cs) with
        | true =>
          simp only [hp, if_true]
          congr 1
          exact ih m2 _ (by simp only [List.length_drop]; omega)
            (by simp only [List.length_drop]; omega)
        | false =>
          simp only [hp, Bool.false_eq_true, if_false]
          exact congrArg (c :: ·) (ih m2 cs (by omega) (by omega))

theorem replaceAll_prefixMatch {pat : List Char} (t rep : List Char) (hne : pat ≠ []) :
    replaceAll (pat ++ t) pat rep = rep ++ replaceAll t pat rep := by
  cases pat with
  | nil => exact absurd rfl hne
  | cons p ps =>
    show replaceAllFuel (p :: ps) rep ((p :: ps) ++ t).length ((p :: ps) ++ t) =
      rep ++ replaceAllFuel (p :: ps) rep t.length t
    have hlen : ((p :: ps) ++ t).length = (ps ++ t).length + 1 := by
      simp [List.length_append]
    rw [hlen, List.cons_append, replaceAllFuel]
    have hpre : isPrefixL (p :: ps) (p :: (ps ++ t)) = true := by
      have h := isPrefixL_append_self (p :: ps) t
      rwa [List.cons_append] at h
    simp only [hpre, if_true]
    congr 1
    have hdrop : (ps ++ t).drop ((p :: ps).length - 1) = t := by
      simp only [List.length_cons, Nat.add_sub_cancel]
      exact List.drop_left ps t
    rw [hdrop]
    exact replaceAllFuel_fuel_irrel (p :: ps) rep _ _ t
      (by simp [List.length_append]) (le_refl _)

theorem replaceAll_not_contains {s pat : List Char} (rep : List Char)
    (h : containsPat s pat = false) : replaceAll s pat rep = s := by
  cases pat with
  | nil => rfl
  | cons p ps =>
    show replaceAllFuel (p :: ps) rep s.length s = s
    have main : ∀ n s2, (s2 : List Char).length ≤ n → containsPat s2 (p :: ps) = false →
        replaceAllFuel (p :: ps) rep n s2 = s2 := by
      intro n
      induction n with
      | zero =>
        intro s2 hn _
        have hs : s2 = [] := List.length_eq_zero.mp (Nat.le_zero.mp hn)
        subst hs
        rfl
      | succ n ih =>
        intro s2 hn hc
        cases s2 with
        | nil => rfl
        | cons c cs =>
          have hh := containsPat_cons_elim hc
          rw [replaceAllFuel]
          simp only [hh.1, if_false]
          simp only [List.length_cons] at hn
          exact congrArg (c :: ·) (ih cs (by omega) hh.2)
    exact main s.length s (le_refl _) h

theorem replaceAll_append_end {u pat : List Char} (rep : List Char) (hne : pat ≠ [])
    (h : occursBefore u pat = false) : replaceAll (u ++ pat) pat rep = u ++ rep := by
  cases pat with
  | nil => exact absurd rfl hne
  | cons p ps =>
    show replaceAllFuel (p :: ps) rep (u ++ (p :: ps)).length (u ++ (p :: ps)) = u ++ rep
    have main : ∀ n u2, ((u2 : List Char) ++ (p :: ps)).length ≤ n →
        occursBefore u2 (p :: ps) = false →
        replaceAllFuel (p :: ps) rep n (u2 ++ (p :: ps)) = u2 ++ rep := by
      intro n
      induction n with
      | zero =>
        intro u2 hn _
        exfalso
        simp [List.length_append] at hn
      | succ n ih =>
        intro u2 hn hb
        cases u2 with
        | nil =>
          simp only [List.nil_append]
          rw [replaceAllFuel]
          have hpre : isPrefixL (p :: ps) (p :: ps) = true := isPrefixL_refl _
          simp only [hpre, if_true]
          have hdrop : ps.drop ((p :: ps).length - 1) = [] := by
            simp only [List.length_cons, Nat.add_sub_cancel]
            exact List.drop_length ps
          rw [hdrop]
          cases n <;> simp [replaceAllFuel]
        | cons c cs =>
          simp only [occursBefore, Bool.or_eq_false_iff] at hb
          rw [List.cons_append, replaceAllFuel]
          have h1 : isPrefixL (p :: ps) (c :: (cs ++ (p :: ps))) = false := by
            have h2 := hb.1
            rwa [List.cons_append] at h2
          simp only [h1, if_false]
          simp only [List.cons_append, List.length_cons] at hn
          exact congrArg (c :: ·) (ih cs (by omega) hb.2)
    exact main _ u (le_refl _) h

theorem replaceAll_singleChar (a b : Char) (l : List Char) :
    replaceAll l [a] [b] = l.map (fun c => if c = a then b else c) := by
  show replaceAllFuel [a] [b] l.length l = _
  have main : ∀ n l2, (l2 : List Char).length ≤ n →
      replaceAllFuel [a] [b] n l2 = l2.map (fun c => if c = a then b else c) := by
    intro n
    induction n with
    | zero =>
      intro l2 hn
      have hs : l2 = [] := List.length_eq_zero.mp (Nat.le_zero.mp hn)
      subst hs
      rfl
    | succ n ih =>
      intro l2 hn
      cases l2 with
      | nil => rfl
      | cons c cs =>
        rw [replaceAllFuel]
        simp only [List.length_cons] at hn
        by_cases hc : c = a
        · subst hc
          have hpre : isPrefixL [c] (c :: cs) = true := by simp [isPrefixL]
          simp only [hpre, if_true, List.map_cons, if_pos rfl]
          have hdrop : cs.drop ([c].length - 1) = cs := by simp
          rw [hdrop]
          exact congrArg (b :: ·) (ih cs (by omega))
        · have hpre : isPrefixL [a] (c :: cs) = false := by
            simp only [isPrefixL, Bool.and_true, beq_eq_false_iff_ne, ne_eq]
            exact fun hh => hc hh.symm
          simp only [hpre, if_false, List.map_cons, if_neg hc]
          exact congrArg (c :: ·) (ih cs (by omega))
  exact main l.length l (le_refl _)

theorem replaceAll_crlf (l : List Char) :
    replaceAll l ['\r', '\n'] ['\n'] = lfNormalize l := by
  show replaceAllFuel ['\r', '\n'] ['\n'] l.length l = _
  have main : ∀ n l2, (l2 : List Char).length ≤ n →
      replaceAllFuel ['\r', '\n'] ['\n'] n l2 = lfNormalize l2 := by
    intro n
    induction n with
    | zero =>
      intro l2 hn
      have hs : l2 = [] := List.length_eq_zero.mp (Nat.le_zero.mp hn)
      subst hs
      rfl
    | succ n ih =>
      intro l2 hn
      cases l2 with
      | nil => rfl
      | cons c cs =>
        cases cs with
        | nil =>
          rw [replaceAllFuel]
          have hpre : isPrefixL ['\r', '\n'] [c] = false := by
            simp [isPrefixL]
          simp only [hpre, if_false]
          cases n <;> rfl
        | cons c2 t =>
          rw [replaceAllFuel]
          simp only [List.length_cons] at hn
          by_cases h : c = '\r' ∧ c2 = '\n'
          · obtain ⟨h1, h2⟩ := h
            subst h1
            subst h2
            have hpre : isPrefixL ['\r', '\n'] ('\r' :: '\n' :: t) = true := by
              simp [isPrefixL]
            simp only [hpre, if_true]
            have hdrop : ('\n' :: t).drop (['\r', '\n'].length - 1) = t := by simp
            rw [hdrop, lfNormalize]
            simp only [if_pos (And.intro rfl rfl)]
            exact congrArg ('\n' :: ·) (ih t (by omega))
          · have hpre : isPrefixL ['\r', '\n'] (c :: c2 :: t) = false := by
              simp only [isPrefixL, Bool.and_true, Bool.and_eq_false_iff,
                beq_eq_false_iff_ne, ne_eq]
              by_cases hc : c = '\r'
              · subst hc
                exact Or.inr (fun hh => h ⟨rfl, hh.symm⟩)
              · exact Or.inl (fun hh => hc hh.symm)
            simp only [hpre, if_false]
            rw [lfNormalize]
            simp only [if_neg h]
            exact congrArg (c :: ·) (ih (c2 :: t) (by simp only [List.length_cons]; omega))
  exact main l.length l (le_refl _)

/-! ## splitOnChar and joinWith facts -/

theorem splitOnChar_ne_nil (sep : Char) (l : List Char) : splitOnChar sep l ≠ [] := by
  induction l with
  | nil => simp [splitOnChar]
  | cons c cs ih =>
    simp only [splitOnChar]
    split
    · simp
    · split
      · simp
      · simp

theorem splitOnChar_no_sep {sep : Char} {l : List Char} (h : sep ∉ l) :
    splitOnChar sep l = [l] := by
  induction l with
  | nil => rfl
  | cons c cs ih =>
    simp only [List.mem_cons, not_or] at h
    simp only [splitOnChar]
    have hc : (c == sep) = false := by
      simp only [beq_eq_false_iff_ne, ne_eq]
      exact fun hh => h.1 hh.symm
    rw [if_neg (by simp [hc])]
    rw [ih h.2]

theorem splitOnChar_cons_sep (sep : Char) (cs : List Char) :
    splitOnChar sep (sep :: cs) = [] :: splitOnChar sep cs := by
  rw [splitOnChar]
  rw [if_pos (by simp)]

theorem splitOnChar_cons_ne {sep c : Char} (h : c ≠ sep) (cs : List Char) :
    splitOnChar sep (c :: cs) =
      match splitOnChar sep cs with
      | [] => [[c]]
      | h2 :: t => (c :: h2) :: t := by
  rw [splitOnChar]
  rw [if_neg (by simp [h])]

theorem splitOnChar_append_sep (sep : Char) (m b : List Char) :
    splitOnChar sep (m ++ sep :: b) = splitOnChar sep m ++ splitOnChar sep b := by
  induction m with
  | nil =>
    rw [List.nil_append, splitOnChar_cons_sep]
    rfl
  | cons c m2 ih =>
    by_cases hc : c = sep
    · subst hc
      rw [List.cons_append, splitOnChar_cons_sep, ih, splitOnChar_cons_sep]
      rfl
    · obtain ⟨h2, t2, hm⟩ : ∃ h2 t2, splitOnChar sep m2 = h2 :: t2 := by
        cases hsp : splitOnChar sep m2 with
        | nil => exact absurd hsp (splitOnChar_ne_nil sep m2)
        | cons x xs => exact ⟨x, xs, rfl⟩
      rw [List.cons_append, splitOnChar_cons_ne hc (m2 ++ sep :: b), ih, hm,
        splitOnChar_cons_ne hc m2, hm]
      rfl

theorem getLastD_concat {α : Type} (l : List α) (a d : α) :
    (l ++ [a]).getLastD d = a := by
  simp

theorem getLastD_split_append {x b : List Char} (hb : '/' ∉ b) :
    (splitOnChar '/' (x ++ '/' :: b)).getLastD [] = b := by
  rw [splitOnChar_append_sep, splitOnChar_no_sep hb]
  exact getLastD_concat _ _ _

theorem splitOnChar_joinWith (sep : Char) :
    ∀ l : List (List Char), (∀ x ∈ l, sep ∉ x) → l ≠ [] →
      splitOnChar sep (joinWith sep l) = l := by
  intro l
  induction l with
  | nil => intro _ h; exact absurd rfl h
  | cons x xs ih =>
    intro hmem _
    cases xs with
    | nil =>
      show splitOnChar sep x = [x]
      exact splitOnChar_no_sep (hmem x (by simp))
    | cons y t =>
      show splitOnChar sep (x ++ sep :: joinWith sep (y :: t)) = x :: y :: t
      rw [splitOnChar_append_sep, splitOnChar_no_sep (hmem x (by simp))]
      rw [ih (fun z hz => hmem z (by simp [hz])) (by simp)]
      rfl

/-! ## stripChars facts -/

theorem dropWhile_head_false {p : Char → Bool} {l : List Char} {c : Char} {t : List Char}
    (h : l.dropWhile p = c :: t) : p c = false := by
  have hh := List.head?_dropWhile_not p l
  rw [h] at hh
  simpa using hh

theorem getLast?_dropWhile {p : Char → Bool} {l : List Char}
    (h : l.dropWhile p ≠ []) : (l.dropWhile p).getLast? = l.getLast? := by
  induction l with
  | nil => simp at h
  | cons a l2 ih =>
    by_cases hp : p a = true
    · rw [List.dropWhile_cons, if_pos hp] at h ⊢
      cases l2 with
      | nil => simp at h
      | cons b t =>
        rw [List.getLast?_cons_cons]
        exact ih h
    · rw [List.dropWhile_cons, if_neg hp]

theorem stripChars_head_false {l : List Char} {c : Char} {t : List Char}
    (h : stripChars l = c :: t) : Char.isWhitespace c = false := by
  unfold stripChars at h
  set a := l.dropWhile Char.isWhitespace with ha
  set b := a.reverse.dropWhile Char.isWhitespace with hb
  have hbne : b ≠ [] := by
    intro hbnil
    rw [hbnil] at h
    simp at h
  have h1 : b.getLast? = a.reverse.getLast? := getLast?_dropWhile hbne
  have h2 : a.reverse.getLast? = a.head? := List.getLast?_reverse a
  have h3 : b.reverse.head? = b.getLast? := List.head?_reverse b
  rw [h] at h3
  simp only [List.head?_cons] at h3
  have h4 : a.head? = some c := by
    rw [← h2, ← h1, ← h3]
  have h5 : a = l.dropWhile Char.isWhitespace := ha
  cases hda : a with
  | nil => rw [hda] at h4; simp at h4
  | cons x xs =>
    rw [hda] at h4
    simp only [List.head?_cons, Option.some.injEq] at h4
    subst h4
    exact dropWhile_head_false (ha ▸ hda)

theorem stripChars_last_false {l : List Char} {c : Char} {t : List Char} {d : Char}
    (h : stripChars l = c :: t) (hd : (c :: t).getLast? = some d) :
    Char.isWhitespace d = false := by
  unfold stripChars at h
  set b := (l.dropWhile Char.isWhitespace).reverse.dropWhile Char.isWhitespace with hb
  have h1 : b.reverse.getLast? = b.head? := List.getLast?_reverse b
  rw [h] at h1
  rw [hd] at h1
  cases hdb : b with
  | nil => rw [hdb] at h1; simp at h1
  | cons x xs =>
    rw [hdb] at h1
    simp only [List.head?_cons, Option.some.injEq] at h1
    subst h1
    exact dropWhile_head_false (hb ▸ hdb)

theorem stripChars_append_newline (l : List Char) :
    stripChars (stripChars l ++ ['\n']) = stripChars l := by
  cases hst : stripChars l with
  | nil => rfl
  | cons c t =>
    have hhead : Char.isWhitespace c = false := stripChars_head_false hst
    obtain ⟨d, hd⟩ : ∃ d, (c :: t).getLast? = some d := by
      cases hgl : (c :: t).getLast? with
      | none => exact absurd hgl (by simp)
      | some d => exact ⟨d, rfl⟩
    have hlast : Char.isWhitespace d = false := stripChars_last_false hst hd
    show stripChars ((c :: t) ++ ['\n']) = c :: t
    unfold stripChars
    have s1 : ((c :: t) ++ ['\n']).dropWhile Char.isWhitespace = (c :: t) ++ ['\n'] := by
      rw [List.cons_append, List.dropWhile_cons, if_neg (by simp [hhead])]
    rw [s1]
    have s2 : ((c :: t) ++ ['\n']).reverse = '\n' :: (c :: t).reverse := by
      simp
    rw [s2]
    have s3 : ('\n' :: (c :: t).reverse).dropWhile Char.isWhitespace =
        (c :: t).reverse.dropWhile Char.isWhitespace := by
      rw [List.dropWhile_cons, if_pos (by simp [Char.isWhitespace])]
    rw [s3]
    obtain ⟨r, hr⟩ : ∃ r, (c :: t).reverse = d :: r := by
      have := List.head?_reverse (c :: t)
      rw [hd] at this
      cases hrv : (c :: t).reverse with
      | nil => rw [hrv] at this; simp at this
      | cons x xs =>
        rw [hrv] at this
        simp only [List.head?_cons, Option.some.injEq] at this
        subst this
        exact ⟨xs, rfl⟩
    rw [hr, List.dropWhile_cons, if_neg (by simp [hlast]), ← hr]
    simp

/-! ## lexLe and sorted2 facts -/

theorem lexLe_total (a b : List Char) : lexLe a b = true ∨ lexLe b a = true := by
  induction a generalizing b with
  | nil => exact Or.inl rfl
  | cons x xs ih =>
    cases b with
    | nil => exact Or.inr rfl
    | cons y ys =>
      by_cases hxy : x = y
      · subst hxy
        simp only [lexLe, if_pos rfl]
        exact ih ys
      · have hne : x.toNat ≠ y.toNat := fun hh => hxy (Char.ext (UInt32.toNat.inj hh))
        have hyx : ¬ y = x := fun hh => hxy hh.symm
        simp only [lexLe, if_neg hxy, if_neg hyx, decide_eq_true_eq]
        omega

theorem lexLe_antisymm : ∀ {a b : List Char},
    lexLe a b = true → lexLe b a = true → a = b := by
  intro a
  induction a with
  | nil =>
    intro b h1 h2
    cases b with
    | nil => rfl
    | cons y ys => simp [lexLe] at h2
  | cons x xs ih =>
    intro b h1 h2
    cases b with
    | nil => simp [lexLe] at h1
    | cons y ys =>
      by_cases hxy : x = y
      · subst hxy
        simp only [lexLe, if_pos rfl] at h1 h2
        exact congrArg (x :: ·) (ih h1 h2)
      · have hyx : ¬ y = x := fun hh => hxy hh.symm
        simp only [lexLe, if_neg hxy, if_neg hyx, decide_eq_true_eq] at h1 h2
        exact absurd h1 (by omega)

theorem sorted2_comm (x y : String) : sorted2 x y = sorted2 y x := by
  unfold sorted2
  by_cases h1 : lexLe x.data y.data = true
  · by_cases h2 : lexLe y.data x.data = true
    · have hxy : x = y := String.ext (lexLe_antisymm h1 h2)
      subst hxy
      rfl
    · rw [if_pos h1, if_neg h2]
  · have h2 : lexLe y.data x.data = true := by
      rcases lexLe_total x.data y.data with h | h
      · exact absurd h h1
      · exact h
    rw [if_neg h1, if_pos h2]

theorem sorted2_eq_iff {x y a b : String} :
    sorted2 x y = sorted2 a b ↔ (x = a ∧ y = b) ∨ (x = b ∧ y = a) := by
  constructor
  · intro h
    unfold sorted2 at h
    by_cases h1 : lexLe x.data y.data = true
    · by_cases h2 : lexLe a.data b.data = true
      · rw [if_pos h1, if_pos h2] at h
        simp only [List.cons.injEq, and_true] at h
        exact Or.inl ⟨h.1, h.2⟩
      · rw [if_pos h1, if_neg h2] at h
        simp only [List.cons.injEq, and_true] at h
        exact Or.inr ⟨h.1, h.2⟩
    · by_cases h2 : lexLe a.data b.data = true
      · rw [if_neg h1, if_pos h2] at h
        simp only [List.cons.injEq, and_true] at h
        exact Or.inr ⟨h.2, h.1⟩
      · rw [if_neg h1, if_neg h2] at h
        simp only [List.cons.injEq, and_true] at h
        exact Or.inl ⟨h.2, h.1⟩
  · rintro (⟨rfl, rfl⟩ | ⟨rfl, rfl⟩)
    · rfl
    · exact sorted2_comm x y

/-! ## Key-value store facts -/

theorem kvGet_cons (k1 v1 : String) (t : KV) (q : String) :
    kvGet ((k1, v1) :: t) q = if k1 = q then some v1 else kvGet t q := rfl

theorem kvHasKey_cons (k1 v1 : String) (t : KV) (q : String) :
    kvHasKey ((k1, v1) :: t) q = ((k1 = q : Bool) || kvHasKey t q) := rfl

theorem kvGet_map_self {st : KV} {k : String} (v : String) (h : kvHasKey st k = true) :
    kvGet (st.map (fun p => if p.1 = k then (k, v) else p)) k = some v := by
  induction st with
  | nil => simp [kvHasKey] at h
  | cons p t ih =>
    obtain ⟨k1, v1⟩ := p
    rw [kvHasKey_cons] at h
    simp only [Bool.or_eq_true, decide_eq_true_eq] at h
    by_cases hk : k1 = k
    · subst hk
      simp [kvGet_cons]
    · have h2 : kvHasKey t k = true := by
        rcases h with h | h
        · exact absurd h hk
        · exact h
      simp [kvGet_cons, hk, ih h2]

theorem kvGet_append_self {st : KV} {k : String} (v : String) (h : kvHasKey st k = false) :
    kvGet (st ++ [(k, v)]) k = some v := by
  induction st with
  | nil => simp [kvGet_cons, kvGet]
  | cons p t ih =>
    obtain ⟨k1, v1⟩ := p
    rw [kvHasKey_cons] at h
    simp only [Bool.or_eq_false_iff, decide_eq_false_iff_not] at h
    simp only [List.cons_append, kvGet_cons, if_neg h.1]
    exact ih h.2

theorem kvGet_put_self (st : KV) (k v : String) : kvGet (kvPut st k v) k = some v := by
  by_cases h : kvHasKey st k = true
  · rw [kvPut, if_pos h]
    exact kvGet_map_self v h
  · rw [kvPut, if_neg h]
    exact kvGet_append_self v (by simpa using h)

theorem kvGet_put_other {st : KV} {k q : String} (v : String) (h : q ≠ k) :
    kvGet (kvPut st k v) q = kvGet st q := by
  have hkq : ¬ k = q := fun hx => h hx.symm
  by_cases hh : kvHasKey st k = true
  · rw [kvPut, if_pos hh]
    clear hh
    induction st with
    | nil => rfl
    | cons p t ih =>
      obtain ⟨k1, v1⟩ := p
      by_cases hk : k1 = k
      · subst hk
        simp [kvGet_cons, hkq, ih]
      · simp only [List.map_cons, if_neg hk]
        by_cases hq : k1 = q
        · simp [kvGet_cons, hq]
        · simp [kvGet_cons, hq, ih]
  · rw [kvPut, if_neg hh]
    clear hh
    induction st with
    | nil => simp [kvGet, kvGet_cons, hkq]
    | cons p t ih =>
      obtain ⟨k1, v1⟩ := p
      simp only [List.cons_append, kvGet_cons]
      by_cases hq : k1 = q
      · rw [if_pos hq, if_pos hq]
      · rw [if_neg hq, if_neg hq]
        exact ih

theorem kvGet_delete_self (st : KV) (k : String) : kvGet (kvDelete st k) k = none := by
  induction st with
  | nil => rfl
  | cons p t ih =>
    obtain ⟨k1, v1⟩ := p
    by_cases hk : k1 = k
    · subst hk
      simp only [kvDelete, List.filter_cons]
      rw [if_neg (by simp)]
      simpa [kvDelete] using ih
    · simp only [kvDelete, List.filter_cons]
      rw [if_pos (by simp [hk])]
      simp only [kvGet_cons, if_neg hk]
      simpa [kvDelete] using ih

theorem kvGet_delete_other {st : KV} {k q : String} (h : q ≠ k) :
    kvGet (kvDelete st k) q = kvGet st q := by
  induction st with
  | nil => rfl
  | cons p t ih =>
    obtain ⟨k1, v1⟩ := p
    by_cases hk : k1 = k
    · subst hk
      simp only [kvDelete, List.filter_cons]
      rw [if_neg (by simp)]
      have hq : ¬ k1 = q := fun hx => h hx.symm
      simp only [kvGet_cons, if_neg hq]
      simpa [kvDelete] using ih
    · simp only [kvDelete, List.filter_cons]
      rw [if_pos (by simp [hk])]
      simp only [kvGet_cons]
      by_cases hq : k1 = q
      · rw [if_pos hq, if_pos hq]
      · rw [if_neg hq, if_neg hq]
        simpa [kvDelete] using ih

theorem kvHasKey_false_of_recurse_nil {st : KV} {k : String}
    (h : kvGetRecurse st k = []) : kvHasKey st k = false := by
  induction st with
  | nil => rfl
  | cons p t ih =>
    obtain ⟨k1, v1⟩ := p
    simp only [kvGetRecurse, List.filter_cons] at h
    by_cases hp : isPrefixL k.data k1.data = true
    · rw [if_pos hp] at h
      simp at h
    · rw [if_neg hp] at h
      have hk1 : k1 ≠ k := by
        intro hk
        subst hk
        exact hp (isPrefixL_refl _)
      rw [kvHasKey_cons]
      simp only [Bool.or_eq_false_iff, decide_eq_false_iff_not]
      exact ⟨hk1, ih (by simpa [kvGetRecurse] using h)⟩

theorem kvPut_not_has {st : KV} {k : String} (v : String) (h : kvHasKey st k = false) :
    kvPut st k v = st ++ [(k, v)] := by
  rw [kvPut, if_neg (by simp [h])]

theorem kvMap_noop {st : KV} {k : String} (v : String) (h : kvHasKey st k = false) :
    st.map (fun p => if p.1 = k then (k, v) else p) = st := by
  induction st with
  | nil => rfl
  | cons p t ih =>
    obtain ⟨k1, v1⟩ := p
    rw [kvHasKey_cons] at h
    simp only [Bool.or_eq_false_iff, decide_eq_false_iff_not] at h
    simp only [List.map_cons, if_neg h.1]
    rw [ih h.2]

theorem kvHasKey_append_self (st : KV) (k v : String) :
    kvHasKey (st ++ [(k, v)]) k = true := by
  induction st with
  | nil => simp [kvHasKey_cons, kvHasKey]
  | cons p t ih =>
    obtain ⟨k1, v1⟩ := p
    simp only [List.cons_append, kvHasKey_cons, Bool.or_eq_true]
    exact Or.inr ih

theorem kvPut_append_update {st : KV} {k : String} (v1 v2 : String)
    (h : kvHasKey st k = false) :
    kvPut (st ++ [(k, v1)]) k v2 = st ++ [(k, v2)] := by
  rw [kvPut, if_pos (kvHasKey_append_self st k v1)]
  rw [List.map_append, kvMap_noop v2 h]
  simp

theorem kvGetRecurse_append (st1 st2 : KV) (q : String) :
    kvGetRecurse (st1 ++ st2) q = kvGetRecurse st1 q ++ kvGetRecurse st2 q :=
  List.filter_append ..

theorem kvGetRecurse_single_self (k v : String) : kvGetRecurse [(k, v)] k = [(k, v)] := by
  simp [kvGetRecurse, List.filter_cons, isPrefixL_refl]

/-! ## Key path facts -/

theorem append_right_ne {base : String} {x y : String} (h : x.data ≠ y.data) :
    base ++ x ≠ base ++ y := by
  intro hh
  have hd := congrArg String.data hh
  rw [strData_append, strData_append] at hd
  exact h (List.append_cancel_left hd)

theorem ssl_cert_path_cert_ne_key (svc inst : String) (host_id : Option String) :
    ssl_cert_path svc inst "cert" host_id ≠ ssl_cert_path svc inst "key" host_id := by
  have hck : ("cert" : String).data ≠ ("key" : String).data := by decide
  cases host_id with
  | none => exact append_right_ne hck
  | some h =>
    by_cases hh : h = ""
    · simp only [ssl_cert_path, if_pos hh]
      exact append_right_ne hck
    · simp only [ssl_cert_path, if_neg hh]
      exact append_right_ne hck

theorem consulKey_swap_inj {svc a b : String}
    (h : consulKey svc a (some "swap") = consulKey svc b (some "swap")) : a = b := by
  simp only [consulKey] at h
  have hd := congrArg String.data h
  simp only [strData_append] at hd
  have h1 := List.append_cancel_right hd
  have h2 := List.append_cancel_right h1
  have h3 := List.append_cancel_left h2
  exact String.ext h3

/-! ## Sentinel frame facts -/

theorem beginBlock_data_ne_nil (l : String) : (beginBlock l).data ≠ [] := by
  unfold beginBlock
  intro h
  rw [strData_append, strData_append] at h
  have h2 := (List.append_eq_nil.mp h).2
  exact absurd h2 (by decide)

theorem endBlock_data_ne_nil (l : String) : (endBlock l).data ≠ [] := by
  unfold endBlock
  intro h
  rw [strData_append, strData_append] at h
  have h2 := (List.append_eq_nil.mp h).2
  exact absurd h2 (by decide)

theorem endBlock_data_length_lt (l : String) :
    (endBlock l).data.length < (beginBlock l).data.length := by
  unfold beginBlock endBlock
  rw [strData_append, strData_append, strData_append, strData_append]
  simp only [List.length_append, List.length_cons, List.length_nil]
  omega

theorem containsPat_endBlock_beginBlock (l : String) :
    containsPat (endBlock l).data (beginBlock l).data = false :=
  containsPat_of_length_lt (endBlock_data_length_lt l)

theorem unframe_empty_frame (name : String) :
    set_header_footer (some (beginBlock name ++ endBlock name)) name true = "" := by
  unfold set_header_footer
  rw [if_pos rfl]
  have h1 : pyReplace (beginBlock name ++ endBlock name) (beginBlock name) ""
      = (⟨(endBlock name).data⟩ : String) := by
    unfold pyReplace
    congr 1
    rw [strData_append]
    show replaceAll ((beginBlock name).data ++ (endBlock name).data)
      (beginBlock name).data [] = (endBlock name).data
    rw [replaceAll_prefixMatch _ _ (beginBlock_data_ne_nil name)]
    rw [replaceAll_not_contains _ (containsPat_endBlock_beginBlock name)]
    rfl
  show pyStrip (pyReplace (pyReplace (Option.getD (some (beginBlock name ++ endBlock name)) "")
    (beginBlock name) "") (endBlock name) "") = ""
  rw [Option.getD_some, h1, strMk_data]
  have h2 : pyReplace (endBlock name) (endBlock name) "" = "" := by
    apply String.ext
    show replaceAll (endBlock name).data (endBlock name).data [] = ("" : String).data
    have h3 := @replaceAll_append_end [] (endBlock name).data []
      (endBlock_data_ne_nil name) rfl
    simpa using h3
  rw [h2]
  rfl

/-! ## C1: removing the last upstream server -/

/-- C1 (amended): after `remove_server_upstream` removes the last remaining
server of an upstream, `list_upstream` returns the empty set, and the
underlying key is NOT deleted: it remains present holding the empty sentinel
frame (begin line immediately followed by the end line). -/
theorem remove_last_server_upstream_empties (svc : String) (st : KV) (inst u : String)
    (server : ServerArg)
    (h : remove_server_upstream_set svc st inst u server = []) :
    kvGet (remove_server_upstream svc st inst u server) (upstream_key svc inst u)
        = some (beginBlock "upstream" ++ endBlock "upstream") ∧
      list_upstream svc (remove_server_upstream svc st inst u server) inst u = [] := by
  have hrm : remove_server_upstream svc st inst u server = remove_upstream svc st inst u := by
    unfold remove_server_upstream
    rw [h]
    rfl
  rw [hrm]
  unfold remove_upstream
  have hframe : set_header_footer none "upstream" false
      = beginBlock "upstream" ++ endBlock "upstream" := rfl
  constructor
  · rw [kvGet_put_self, hframe]
  · unfold list_upstream
    rw [kvGet_put_self]
    have hu : set_header_footer (some (set_header_footer none "upstream" false))
        "upstream" true = "" := by
      rw [hframe]
      exact unframe_empty_frame "upstream"
    simp [hu]

/-- C1 witness: a concrete store holding upstream `u = {"server1"}`. -/
theorem remove_last_server_upstream_empties_witness :
    kvGet (remove_server_upstream "rpaas" [(upstream_key "rpaas" "i" "u",
        set_header_footer (some "server1") "upstream" false)] "i" "u"
        (ServerArg.one (some "server1"))) (upstream_key "rpaas" "i" "u")
        = some (beginBlock "upstream" ++ endBlock "upstream") ∧
      list_upstream "rpaas" (remove_server_upstream "rpaas"
        [(upstream_key "rpaas" "i" "u",
          set_header_footer (some "server1") "upstream" false)] "i" "u"
        (ServerArg.one (some "server1"))) "i" "u" = [] :=
  remove_last_server_upstream_empties "rpaas"
    [(upstream_key "rpaas" "i" "u", set_header_footer (some "server1") "upstream" false)]
    "i" "u" (ServerArg.one (some "server1")) (by decide)

/-- C1 counterexample: the claim says the key becomes absent, but after
removing the last server the key is still present (holding the empty frame). -/
theorem remove_last_server_upstream_key_not_deleted :
    kvGet (remove_server_upstream "rpaas" [(upstream_key "rpaas" "i" "u",
        set_header_footer (some "server1") "upstream" false)] "i" "u"
        (ServerArg.one (some "server1"))) (upstream_key "rpaas" "i" "u") ≠ none := by
  decide

/-! ## C2: falsy server arguments -/

/-- C2 (amended): `add_server_upstream` with a falsy server performs no KV
operation (the store is unchanged), but `remove_server_upstream` has no such
guard: with an empty-list server it still reads the upstream and issues a
write — re-storing the unchanged server set when it is non-empty and writing
the empty sentinel frame when it is empty — so the upstream key is present
afterwards even if it was absent before. -/
theorem falsy_server_add_noop_remove_writes (svc : String) (st : KV) (inst u : String)
    (server : ServerArg) (h : serverTruthy server = false) :
    add_server_upstream svc st inst u server = st ∧
    remove_server_upstream svc st inst u (ServerArg.many []) =
      (if list_upstream svc st inst u = [] then remove_upstream svc st inst u
       else save_upstream svc st inst u (list_upstream svc st inst u)) ∧
    kvGet (remove_server_upstream svc st inst u (ServerArg.many []))
      (upstream_key svc inst u) ≠ none := by
  have hset : remove_server_upstream_set svc st inst u (ServerArg.many [])
      = list_upstream svc st inst u := by
    show setDiff (list_upstream svc st inst u) (([] : List String).map
      (fun s => normalize_server (some s))) = list_upstream svc st inst u
    simp [setDiff]
  have hmid : remove_server_upstream svc st inst u (ServerArg.many []) =
      (if list_upstream svc st inst u = [] then remove_upstream svc st inst u
       else save_upstream svc st inst u (list_upstream svc st inst u)) := by
    unfold remove_server_upstream
    rw [hset]
    cases hl : list_upstream svc st inst u with
    | nil => simp
    | cons x xs => simp
  refine ⟨?_, hmid, ?_⟩
  · unfold add_server_upstream
    rw [h]
    rfl
  · rw [hmid]
    cases hl : list_upstream svc st inst u with
    | nil =>
      rw [if_pos rfl]
      unfold remove_upstream
      rw [kvGet_put_self]
      simp
    | cons x xs =>
      rw [if_neg (by simp)]
      unfold save_upstream
      rw [kvGet_put_self]
      simp

/-- C2 witness: with an absent upstream and the falsy single-server forms. -/
theorem falsy_server_add_noop_remove_writes_witness :
    add_server_upstream "rpaas" [] "i" "u" (ServerArg.one none) = [] ∧
    remove_server_upstream "rpaas" [] "i" "u" (ServerArg.many []) =
      (if list_upstream "rpaas" [] "i" "u" = [] then remove_upstream "rpaas" [] "i" "u"
       else save_upstream "rpaas" [] "i" "u" (list_upstream "rpaas" [] "i" "u")) ∧
    kvGet (remove_server_upstream "rpaas" [] "i" "u" (ServerArg.many []))
      (upstream_key "rpaas" "i" "u") ≠ none :=
  falsy_server_add_noop_remove_writes "rpaas" [] "i" "u" (ServerArg.one none) (by decide)

/-- C2 counterexample: the claim says a falsy server argument leaves the
stored state unchanged for `remove_server_upstream` too, but calling it with
an empty server list on an empty store creates the upstream key. -/
theorem falsy_server_remove_mutates :
    remove_server_upstream "rpaas" [] "i" "u" (ServerArg.many []) ≠ ([] : KV) := by
  decide

/-! ## C8: certificate CRLF normalization -/

/-- C8: `set_certificate` stores both halves with every CRLF replaced by LF,
so a subsequent `get_certificate` returns the LF-normalized texts. -/
theorem set_certificate_crlf_normalizes (svc : String) (st : KV) (inst : String)
    (cert_data key_data : String) (host_id : Option String) :
    get_certificate svc (set_certificate svc st inst cert_data key_data host_id) inst host_id
      = Except.ok (⟨lfNormalize cert_data.data⟩, ⟨lfNormalize key_data.data⟩) := by
  have hne := ssl_cert_path_cert_ne_key svc inst host_id
  have hrep : ∀ s2 : String, pyReplace s2 "\r\n" "\n" = (⟨lfNormalize s2.data⟩ : String) := by
    intro s2
    unfold pyReplace
    congr 1
    exact replaceAll_crlf s2.data
  unfold set_certificate get_certificate
  rw [kvGet_put_other _ hne, kvGet_put_self, kvGet_put_self, hrep, hrep]

/-! ## C9: certificate lookup error behavior -/

/-- C9: `get_certificate` raises `CertificateNotFoundError` precisely when at
least one of the two halves is absent, and returns the stored pair when both
are present. -/
theorem get_certificate_not_found_iff (svc : String) (st : KV) (inst : String)
    (host_id : Option String) :
    (get_certificate svc st inst host_id = Except.error RpaasError.certificateNotFound ↔
      (kvGet st (ssl_cert_path svc inst "cert" host_id) = none ∨
       kvGet st (ssl_cert_path svc inst "key" host_id) = none)) ∧
    (∀ c k : String, kvGet st (ssl_cert_path svc inst "cert" host_id) = some c →
      kvGet st (ssl_cert_path svc inst "key" host_id) = some k →
      get_certificate svc st inst host_id = Except.ok (c, k)) := by
  unfold get_certificate
  cases hc : kvGet st (ssl_cert_path svc inst "cert" host_id) <;>
    cases hk : kvGet st (ssl_cert_path svc inst "key" host_id) <;> simp

/-- C9 witness: an empty store raises the not-found error. -/
theorem get_certificate_not_found_iff_witness :
    get_certificate "rpaas" [] "i" none = Except.error RpaasError.certificateNotFound :=
  (get_certificate_not_found_iff "rpaas" [] "i" none).1.mpr (Or.inl rfl)

/-! ## C4 and C5: the swap state machine -/

/-- C4 (amended): in every Inconsistent swap state except the degenerate
self-pointing one (`A.swap = A` and `B.swap = B`, which the sorted-values
consistency check fails to detect), `swap_instances` raises
`InstanceAlreadySwappedError` and leaves the store untouched. -/
theorem swap_inconsistent_raises (svc : String) (st : KV) (a b : String)
    (hinc : InconsistentSwapState svc st a b)
    (hdeg : ¬(kvGet st (consulKey svc a (some "swap")) = some a ∧
              kvGet st (consulKey svc b (some "swap")) = some b)) :
    swap_instances svc st a b = (some RpaasError.instanceAlreadySwapped, st) := by
  have hchk : check_swap_state svc st a b = false := by
    unfold InconsistentSwapState at hinc
    unfold check_swap_state
    cases hA : kvGet st (consulKey svc a (some "swap")) with
    | none =>
      cases hB : kvGet st (consulKey svc b (some "swap")) with
      | none =>
        rw [hA, hB] at hinc
        simp at hinc
      | some y => rfl
    | some x =>
      cases hB : kvGet st (consulKey svc b (some "swap")) with
      | none => rfl
      | some y =>
        have hne : sorted2 x y ≠ sorted2 a b := by
          intro heq
          rcases sorted2_eq_iff.mp heq with ⟨hxa, hyb⟩ | ⟨hxb, hya⟩
          · exact hdeg ⟨by rw [hA, hxa], by rw [hB, hyb]⟩
          · rw [hA, hB] at hinc
            rcases hinc with ⟨h1, _⟩ | ⟨_, h2⟩ | ⟨_, _, h3⟩
            · exact absurd h1 (by simp)
            · exact absurd h2 (by simp)
            · exact h3 ⟨by rw [hxb], by rw [hya]⟩
        show (if sorted2 x y ≠ sorted2 a b then false else true) = false
        rw [if_pos hne]
  unfold swap_instances
  rw [hchk]
  rfl

/-- C4 witness: `a` already swapped with a third instance `c`, `b` unswapped. -/
theorem swap_inconsistent_raises_witness :
    swap_instances "rpaas" [(consulKey "rpaas" "a" (some "swap"), "c")] "a" "b"
      = (some RpaasError.instanceAlreadySwapped,
         [(consulKey "rpaas" "a" (some "swap"), "c")]) :=
  swap_inconsistent_raises "rpaas" [(consulKey "rpaas" "a" (some "swap"), "c")] "a" "b"
    (by decide) (by decide)

/-- C4 counterexample: the state `a.swap = "a"`, `b.swap = "b"` is
Inconsistent (both pointers set, not mutually referring), yet
`swap_instances` does not raise and rewrites both pointers. -/
theorem swap_inconsistent_self_pointer_not_raised :
    InconsistentSwapState "rpaas" [(consulKey "rpaas" "a" (some "swap"), "a"),
        (consulKey "rpaas" "b" (some "swap"), "b")] "a" "b" ∧
      (swap_instances "rpaas" [(consulKey "rpaas" "a" (some "swap"), "a"),
        (consulKey "rpaas" "b" (some "swap"), "b")] "a" "b").1 = none ∧
      (swap_instances "rpaas" [(consulKey "rpaas" "a" (some "swap"), "a"),
        (consulKey "rpaas" "b" (some "swap"), "b")] "a" "b").2 ≠
          [(consulKey "rpaas" "a" (some "swap"), "a"),
           (consulKey "rpaas" "b" (some "swap"), "b")] := by
  refine ⟨by decide, by decide, by decide⟩

/-- C5: starting from Unswapped, `swap(A,B); swap(A,B)` clears both swap
keys, and `swap(A,B); swap(B,A)` does too. -/
theorem swap_toggle (svc : String) (st : KV) (a b : String) (hab : a ≠ b)
    (ha : kvGet st (consulKey svc a (some "swap")) = none)
    (hb : kvGet st (consulKey svc b (some "swap")) = none) :
    swap_twice_pointers svc st a b a b = some (none, none) ∧
    swap_twice_pointers svc st a b b a = some (none, none) := by
  have hk : consulKey svc a (some "swap") ≠ consulKey svc b (some "swap") :=
    fun h => hab (consulKey_swap_inj h)
  have hk2 : consulKey svc b (some "swap") ≠ consulKey svc a (some "swap") :=
    fun h => hab (consulKey_swap_inj h).symm
  have hchk1 : check_swap_state svc st a b = true := by
    unfold check_swap_state
    rw [ha, hb]
  have hswap1 : swap_instances svc st a b =
      (none, kvPut (kvPut st (consulKey svc a (some "swap")) b)
        (consulKey svc b (some "swap")) a) := by
    unfold swap_instances
    rw [hchk1, ha]
    rfl
  have g1a : kvGet (kvPut (kvPut st (consulKey svc a (some "swap")) b)
      (consulKey svc b (some "swap")) a) (consulKey svc a (some "swap")) = some b := by
    rw [kvGet_put_other _ hk, kvGet_put_self]
  have g1b : kvGet (kvPut (kvPut st (consulKey svc a (some "swap")) b)
      (consulKey svc b (some "swap")) a) (consulKey svc b (some "swap")) = some a :=
    kvGet_put_self _ _ _
  constructor
  · have hchk2 : check_swap_state svc (kvPut (kvPut st (consulKey svc a (some "swap")) b)
        (consulKey svc b (some "swap")) a) a b = true := by
      unfold check_swap_state
      rw [g1a, g1b]
      simp [sorted2_comm b a]
    have hswap2 : swap_instances svc (kvPut (kvPut st (consulKey svc a (some "swap")) b)
        (consulKey svc b (some "swap")) a) a b =
        (none, kvDelete (kvDelete (kvPut (kvPut st (consulKey svc a (some "swap")) b)
          (consulKey svc b (some "swap")) a) (consulKey svc a (some "swap")))
          (consulKey svc b (some "swap"))) := by
      unfold swap_instances
      rw [hchk2, g1a]
      simp
    unfold swap_twice_pointers
    rw [hswap1]
    show (match swap_instances svc _ a b with
      | (some _, _) => none
      | (none, st2) => some (kvGet st2 (consulKey svc a (some "swap")),
          kvGet st2 (consulKey svc b (some "swap")))) = some (none, none)
    rw [hswap2]
    have e1 : kvGet (kvDelete (kvDelete (kvPut (kvPut st (consulKey svc a (some "swap")) b)
        (consulKey svc b (some "swap")) a) (consulKey svc a (some "swap")))
        (consulKey svc b (some "swap"))) (consulKey svc a (some "swap")) = none := by
      rw [kvGet_delete_other hk]
      exact kvGet_delete_self _ _
    have e2 : kvGet (kvDelete (kvDelete (kvPut (kvPut st (consulKey svc a (some "swap")) b)
        (consulKey svc b (some "swap")) a) (consulKey svc a (some "swap")))
        (consulKey svc b (some "swap"))) (consulKey svc b (some "swap")) = none :=
      kvGet_delete_self _ _
    simp only [e1, e2]
  · have hchk2 : check_swap_state svc (kvPut (kvPut st (consulKey svc a (some "swap")) b)
        (consulKey svc b (some "swap")) a) b a = true := by
      unfold check_swap_state
      rw [g1a, g1b]
      simp [sorted2_comm a b]
    have hswap2 : swap_instances svc (kvPut (kvPut st (consulKey svc a (some "swap")) b)
        (consulKey svc b (some "swap")) a) b a =
        (none, kvDelete (kvDelete (kvPut (kvPut st (consulKey svc a (some "swap")) b)
          (consulKey svc b (some "swap")) a) (consulKey svc b (some "swap")))
          (consulKey svc a (some "swap"))) := by
      unfold swap_instances
      rw [hchk2, g1b]
      simp
    unfold swap_twice_pointers
    rw [hswap1]
    show (match swap_instances svc _ b a with
      | (some _, _) => none
      | (none, st2) => some (kvGet st2 (consulKey svc a (some "swap")),
          kvGet st2 (consulKey svc b (some "swap")))) = some (none, none)
    rw [hswap2]
    have e1 : kvGet (kvDelete (kvDelete (kvPut (kvPut st (consulKey svc a (some "swap")) b)
        (consulKey svc b (some "swap")) a) (consulKey svc b (some "swap")))
        (consulKey svc a (some "swap"))) (consulKey svc a (some "swap")) = none :=
      kvGet_delete_self _ _
    have e2 : kvGet (kvDelete (kvDelete (kvPut (kvPut st (consulKey svc a (some "swap")) b)
        (consulKey svc b (some "swap")) a) (consulKey svc b (some "swap")))
        (consulKey svc a (some "swap"))) (consulKey svc b (some "swap")) = none := by
      rw [kvGet_delete_other hk2]
      exact kvGet_delete_self _ _
    simp only [e1, e2]

/-- C5 witness: two fresh instances on an empty store. -/
theorem swap_toggle_witness :
    swap_twice_pointers "rpaas" [] "x" "y" "x" "y" = some (none, none) ∧
    swap_twice_pointers "rpaas" [] "x" "y" "y" "x" = some (none, none) :=
  swap_toggle "rpaas" [] "x" "y" (by decide) rfl rfl

/-! ## C6: ACL source encoding round trip -/

theorem pyReplace_slash_underscore_data (s : String) :
    (pyReplace s "/" "_").data = s.data.map (fun c => if c = '/' then '_' else c) :=
  replaceAll_singleChar '/' '_' s.data

theorem pyReplace_underscore_slash_data (s : String) :
    (pyReplace s "_" "/").data = s.data.map (fun c => if c = '_' then '/' else c) :=
  replaceAll_singleChar '_' '/' s.data

theorem normalize_acl_src_encode {s : String} (h0 : s ≠ "") (h1 : pyContains s "_" = false) :
    normalize_acl_src (some s) = some (pyReplace s "/" "_") := by
  unfold normalize_acl_src
  show (if s = "" then none
    else if pyContains s "_" = true then some (pyReplace s "_" "/")
    else some (pyReplace s "/" "_")) = some (pyReplace s "/" "_")
  rw [if_neg h0, if_neg (by simp [h1])]

theorem normalize_acl_src_decode {s : String} (h0 : s ≠ "") (h1 : pyContains s "_" = false) :
    normalize_acl_src (some (pyReplace s "/" "_")) = some s := by
  have hmem : '_' ∉ s.data := (containsPat_singleton_false_iff s.data '_').mp h1
  have hdata : (pyReplace s "/" "_").data
      = s.data.map (fun c => if c = '/' then '_' else c) :=
    pyReplace_slash_underscore_data s
  have hne : pyReplace s "/" "_" ≠ "" := by
    intro hh
    apply h0
    apply String.ext
    have hd := congrArg String.data hh
    rw [hdata] at hd
    exact List.map_eq_nil_iff.mp hd
  unfold normalize_acl_src
  show (if pyReplace s "/" "_" = "" then none
    else if pyContains (pyReplace s "/" "_") "_" = true
      then some (pyReplace (pyReplace s "/" "_") "_" "/")
    else some (pyReplace (pyReplace s "/" "_") "/" "_")) = some s
  rw [if_neg hne]
  by_cases hs : '/' ∈ s.data
  · have hmm : '_' ∈ (pyReplace s "/" "_").data := by
      rw [hdata]
      exact List.mem_map.mpr ⟨'/', hs, by simp⟩
    have hcon : pyContains (pyReplace s "/" "_") "_" = true :=
      (containsPat_singleton_iff _ '_').mpr hmm
    rw [if_pos (by simp [hcon])]
    congr 1
    apply String.ext
    rw [pyReplace_underscore_slash_data, hdata, List.map_map]
    have hcong : ∀ c ∈ s.data,
        ((fun c => if c = '_' then '/' else c) ∘ (fun c => if c = '/' then '_' else c)) c
          = (fun c => c) c := by
      intro c hc
      by_cases hcs : c = '/'
      · simp [hcs]
      · have hcu : c ≠ '_' := fun hh => hmem (hh ▸ hc)
        simp [hcs, hcu]
    rw [List.map_congr_left hcong, List.map_id']
  · have hdd : (pyReplace s "/" "_").data = s.data := by
      rw [hdata]
      have hcong : ∀ c ∈ s.data, (fun c => if c = '/' then '_' else c) c = (fun c => c) c := by
        intro c hc
        have hcs : c ≠ '/' := fun hh => hs (hh ▸ hc)
        simp [hcs]
      rw [List.map_congr_left hcong, List.map_id']
  
    have hcon : pyContains (pyReplace s "/" "_") "_" = false := by
      show containsPat (pyReplace s "/" "_").data ("_" : String).data = false
      rw [hdd]
      exact h1
    rw [if_neg (by simp [hcon])]
    congr 1
    apply String.ext
    rw [pyReplace_slash_underscore_data, hdd]
    have hcong : ∀ c ∈ s.data, (fun c => if c = '/' then '_' else c) c = (fun c => c) c := by
      intro c hc
      have hcs : c ≠ '/' := fun hh => hs (hh ▸ hc)
      simp [hcs]
    rw [List.map_congr_left hcong, List.map_id']

/-- C6 (amended): for every NON-EMPTY ACL source without an underscore,
decoding the encoded form recovers the source:
`_normalize_acl_src (_normalize_acl_src s) = s`. -/
theorem acl_src_roundtrip (s : String) (h0 : s ≠ "") (h1 : pyContains s "_" = false) :
    normalize_acl_src (normalize_acl_src (some s)) = some s := by
  rw [normalize_acl_src_encode h0 h1]
  exact normalize_acl_src_decode h0 h1

/-- C6 witness: the canonical CIDR-style source. -/
theorem acl_src_roundtrip_witness :
    normalize_acl_src (normalize_acl_src (some "10.0.0.1/32")) = some "10.0.0.1/32" :=
  acl_src_roundtrip "10.0.0.1/32" (by decide) (by decide)

/-- C6 counterexample: the empty string contains no underscore, yet the
round trip yields Python `None` (the falsy guard), not the empty string. -/
theorem acl_src_roundtrip_fails_empty :
    pyContains "" "_" = false ∧
    normalize_acl_src (normalize_acl_src (some "")) ≠ some "" := by
  exact ⟨rfl, by decide⟩

/-! ## C10: remove_block and list_blocks -/

theorem kvDelete_not_has {st : KV} {k : String} (h : kvHasKey st k = false) :
    kvDelete st k = st := by
  induction st with
  | nil => rfl
  | cons p t ih =>
    obtain ⟨k1, v1⟩ := p
    rw [kvHasKey_cons] at h
    simp only [Bool.or_eq_false_iff, decide_eq_false_iff_not] at h
    simp only [kvDelete, List.filter_cons]
    rw [if_pos (by simp [h.1])]
    rw [show List.filter (fun p => !(p.1 = k : Bool)) t = kvDelete t k from rfl, ih h.2]

theorem filterMap_filter_put (pr : String × String → Bool)
    (fn : String × String → Option (String × String)) (bk f : String) (st : KV)
    (hfn : fn (bk, f) = none) :
    ((kvPut st bk f).filter pr).filterMap fn = ((kvDelete st bk).filter pr).filterMap fn := by
  by_cases hh : kvHasKey st bk = true
  · rw [kvPut, if_pos hh]
    clear hh
    induction st with
    | nil => rfl
    | cons p t ih =>
      obtain ⟨k1, v1⟩ := p
      by_cases hk : k1 = bk
      · subst hk
        rw [List.map_cons]
        have hupd : (if ((k1, v1) : String × String).1 = k1 then (k1, f) else (k1, v1))
            = (k1, f) := by simp
        rw [hupd]
        have hdel : kvDelete ((k1, v1) :: t) k1 = kvDelete t k1 := by
          simp [kvDelete, List.filter_cons]
        rw [hdel]
        by_cases hp : pr (k1, f) = true
        · rw [List.filter_cons, if_pos hp, List.filterMap_cons, hfn]
          exact ih
        · rw [List.filter_cons, if_neg hp]
          exact ih
      · rw [List.map_cons]
        have hupd : (if ((k1, v1) : String × String).1 = bk then (bk, f) else (k1, v1))
            = (k1, v1) := by simp [hk]
        rw [hupd]
        have hdel : kvDelete ((k1, v1) :: t) bk = (k1, v1) :: kvDelete t bk := by
          simp [kvDelete, List.filter_cons, hk]
        rw [hdel]
        by_cases hp : pr (k1, v1) = true
        · rw [List.filter_cons, if_pos hp, List.filter_cons, if_pos hp]
          rw [List.filterMap_cons, List.filterMap_cons]
          cases hfn2 : fn (k1, v1) with
          | none => exact ih
          | some e => exact congrArg (e :: ·) ih
        · rw [List.filter_cons, if_neg hp, List.filter_cons, if_neg hp]
          exact ih
  · have hh2 : kvHasKey st bk = false := by simpa using hh
    rw [kvPut_not_has f hh2, kvDelete_not_has hh2]
    rw [List.filter_append, List.filterMap_append]
    by_cases hp : pr (bk, f) = true
    · simp [List.filter_cons, hp, List.filterMap_cons, hfn]
    · simp [List.filter_cons, hp]

theorem secondLastSeg_block_key (svc inst name : String) (h0 : name ≠ "")
    (h1 : '/' ∉ name.data) :
    secondLastSeg (block_key svc inst (some name)) = name := by
  have hb : block_key svc inst (some name)
      = consulKey svc inst (some ("blocks/" ++ name ++ "/" ++ "ROOT")) := by
    show (if name = "" then consulKey svc inst (some "blocks")
      else consulKey svc inst (some ("blocks/" ++ name ++ "/" ++ "ROOT")))
      = consulKey svc inst (some ("blocks/" ++ name ++ "/" ++ "ROOT"))
    rw [if_neg h0]
  have hdata : (block_key svc inst (some name)).data
      = ((svc.data ++ '/' :: inst.data ++ '/' :: ['b', 'l', 'o', 'c', 'k', 's'])
          ++ '/' :: name.data) ++ '/' :: ['R', 'O', 'O', 'T'] := by
    rw [hb]
    show (svc ++ "/" ++ inst ++ "/" ++ ("blocks/" ++ name ++ "/" ++ "ROOT")).data = _
    simp [strData_append, List.append_assoc]
  unfold secondLastSeg
  rw [hdata]
  rw [splitOnChar_append_sep]
  rw [splitOnChar_no_sep (show ('/' : Char) ∉ (['R', 'O', 'O', 'T'] : List Char) by decide)]
  rw [List.dropLast_concat]
  rw [getLastD_split_append h1]

/-- C10: `remove_block` does not delete the block key: it overwrites it with
the empty sentinel frame, and `list_blocks` skips blocks whose unframed
content is empty, so listing behaves exactly as if the key had been deleted
while the key remains present. -/
theorem remove_block_keeps_key_hides_block (svc : String) (st : KV) (inst name : String)
    (h0 : name ≠ "") (h1 : '/' ∉ name.data) :
    kvGet (remove_block svc st inst name) (block_key svc inst (some name))
        = some (beginBlock name ++ endBlock name) ∧
      list_blocks svc (remove_block svc st inst name) inst none
        = list_blocks svc (kvDelete st (block_key svc inst (some name))) inst none := by
  have hframe : set_header_footer none name false = beginBlock name ++ endBlock name := rfl
  constructor
  · unfold remove_block write_block
    rw [kvGet_put_self, hframe]
  · unfold remove_block write_block list_blocks
    unfold kvGetRecurse
    apply filterMap_filter_put
    have hseg : secondLastSeg (block_key svc inst (some name)) = name :=
      secondLastSeg_block_key svc inst name h0 h1
    show (if set_header_footer (some (set_header_footer none name false))
        (secondLastSeg (block_key svc inst (some name))) true = "" then none
      else some (secondLastSeg (block_key svc inst (some name)),
        set_header_footer (some (set_header_footer none name false))
          (secondLastSeg (block_key svc inst (some name))) true)) = none
    rw [hseg, hframe, unframe_empty_frame name]
    rfl

/-- C10 witness: a store holding one `server` block. -/
theorem remove_block_keeps_key_hides_block_witness :
    kvGet (remove_block "rpaas" [(block_key "rpaas" "i" (some "server"),
        set_header_footer (some "x") "server" false)] "i" "server")
      (block_key "rpaas" "i" (some "server"))
        = some (beginBlock "server" ++ endBlock "server") ∧
      list_blocks "rpaas" (remove_block "rpaas" [(block_key "rpaas" "i" (some "server"),
        set_header_footer (some "x") "server" false)] "i" "server") "i" none
        = list_blocks "rpaas" (kvDelete [(block_key "rpaas" "i" (some "server"),
            set_header_footer (some "x") "server" false)]
            (block_key "rpaas" "i" (some "server"))) "i" none :=
  remove_block_keeps_key_hides_block "rpaas"
    [(block_key "rpaas" "i" (some "server"), set_header_footer (some "x") "server" false)]
    "i" "server" (by decide) (by decide)

/-! ## C7: ACL accumulation -/

theorem pyReplace_slash_ne_empty {s : String} (h0 : s ≠ "") : pyReplace s "/" "_" ≠ "" := by
  intro hh
  apply h0
  apply String.ext
  have hd := congrArg String.data hh
  rw [pyReplace_slash_underscore_data] at hd
  exact List.map_eq_nil_iff.mp hd

theorem slash_not_mem_encode (s : String) : '/' ∉ (pyReplace s "/" "_").data := by
  rw [pyReplace_slash_underscore_data]
  intro hmem
  obtain ⟨c, hc, hfc⟩ := List.mem_map.mp hmem
  by_cases hcs : c = '/'
  · rw [if_pos hcs] at hfc
    exact absurd hfc (by decide)
  · rw [if_neg hcs] at hfc
    exact hcs hfc

theorem lastSeg_acl_key (svc inst e : String) (he : '/' ∉ e.data) :
    lastSeg (consulKey svc inst (some ("acl/" ++ e))) = e := by
  have hdata : (consulKey svc inst (some ("acl/" ++ e))).data
      = (svc.data ++ '/' :: inst.data ++ '/' :: ['a', 'c', 'l']) ++ '/' :: e.data := by
    show (svc ++ "/" ++ inst ++ "/" ++ ("acl/" ++ e)).data = _
    simp [strData_append, List.append_assoc]
  unfold lastSeg
  rw [hdata, getLastD_split_append he]

theorem pySplit_no_comma {d : String} (h : ',' ∉ d.data) : pySplit ',' d = [d] := by
  unfold pySplit
  rw [splitOnChar_no_sep h]
  rfl

theorem pyJoin_single (d : String) : pyJoin ',' [d] = d := rfl

theorem pyJoin_pair (d1 d2 : String) :
    pyJoin ',' [d1, d2] = (⟨d1.data ++ ',' :: d2.data⟩ : String) := rfl

theorem pySplit_pair {d1 d2 : String} (h1 : ',' ∉ d1.data) (h2 : ',' ∉ d2.data) :
    pySplit ',' (⟨d1.data ++ ',' :: d2.data⟩ : String) = [d1, d2] := by
  unfold pySplit
  show (splitOnChar ',' (d1.data ++ ',' :: d2.data)).map (fun l => (⟨l⟩ : String)) = _
  rw [splitOnChar_append_sep, splitOnChar_no_sep h1, splitOnChar_no_sep h2]
  rfl

/-- C7 (amended): for a non-empty source without underscores and comma-free
destinations, two `store_acl_network` calls starting from a state with no ACL
entry for the source yield a single `find_acl_network` entry whose source is
the original source and whose destination list is exactly the set of the two
destinations. -/
theorem acl_store_accumulates (svc : String) (st : KV) (inst s d1 d2 : String)
    (h0 : s ≠ "") (h1 : pyContains s "_" = false)
    (hc1 : ',' ∉ d1.data) (hc2 : ',' ∉ d2.data)
    (hclean : find_acl_network svc st inst (some s) = []) :
    acl_find_summary svc
        (store_acl_network svc (store_acl_network svc st inst s d1) inst s d2) inst s
      = [(some s, {d1, d2})] := by
  have hnorm : normalize_acl_src (some s) = some (pyReplace s "/" "_") :=
    normalize_acl_src_encode h0 h1
  have hencne : pyReplace s "/" "_" ≠ "" := pyReplace_slash_ne_empty h0
  have hkey : acl_key svc inst (normalize_acl_src (some s))
      = consulKey svc inst (some ("acl/" ++ pyReplace s "/" "_")) := by
    rw [hnorm]
    show (if pyReplace s "/" "_" = "" then consulKey svc inst (some "acl")
      else consulKey svc inst (some ("acl/" ++ pyReplace s "/" "_"))) = _
    rw [if_neg hencne]
  have hrec0 : kvGetRecurse st (acl_key svc inst (normalize_acl_src (some s))) = [] := by
    simp only [find_acl_network] at hclean
    exact List.map_eq_nil_iff.mp hclean
  have hrecK : kvGetRecurse st
      (consulKey svc inst (some ("acl/" ++ pyReplace s "/" "_"))) = [] := by
    rw [← hkey]
    exact hrec0
  have hhas : kvHasKey st
      (consulKey svc inst (some ("acl/" ++ pyReplace s "/" "_"))) = false :=
    kvHasKey_false_of_recurse_nil hrecK
  have hst1 : store_acl_network svc st inst s d1
      = st ++ [(consulKey svc inst (some ("acl/" ++ pyReplace s "/" "_")), d1)] := by
    simp only [store_acl_network]
    rw [hclean, hkey]
    show kvPut st (consulKey svc inst (some ("acl/" ++ pyReplace s "/" "_")))
      (pyJoin ',' [d1]) = _
    rw [pyJoin_single]
    exact kvPut_not_has d1 hhas
  have hrec1 : kvGetRecurse
      (st ++ [(consulKey svc inst (some ("acl/" ++ pyReplace s "/" "_")), d1)])
      (consulKey svc inst (some ("acl/" ++ pyReplace s "/" "_")))
      = [(consulKey svc inst (some ("acl/" ++ pyReplace s "/" "_")), d1)] := by
    rw [kvGetRecurse_append, hrecK, kvGetRecurse_single_self]
    rfl
  have hfind1 : find_acl_network svc
      (st ++ [(consulKey svc inst (some ("acl/" ++ pyReplace s "/" "_")), d1)])
      inst (some s) = [(some s, [d1])] := by
    simp only [find_acl_network]
    rw [hkey, hrec1]
    simp only [List.map_cons, List.map_nil]
    rw [lastSeg_acl_key svc inst (pyReplace s "/" "_") (slash_not_mem_encode s)]
    rw [normalize_acl_src_decode h0 h1, pySplit_no_comma hc1]
  have hst2 : store_acl_network svc
      (st ++ [(consulKey svc inst (some ("acl/" ++ pyReplace s "/" "_")), d1)]) inst s d2
      = st ++ [(consulKey svc inst (some ("acl/" ++ pyReplace s "/" "_")),
          pyJoin ',' (setAdd [d1] d2))] := by
    simp only [store_acl_network]
    rw [hfind1, hkey]
    show kvPut (st ++ [(consulKey svc inst (some ("acl/" ++ pyReplace s "/" "_")), d1)])
      (consulKey svc inst (some ("acl/" ++ pyReplace s "/" "_")))
      (pyJoin ',' (setAdd ([d1].dedup) d2)) = _
    rw [show ([d1] : List String).dedup = [d1] from by simp]
    exact kvPut_append_update d1 _ hhas
  have hrec2 : kvGetRecurse
      (st ++ [(consulKey svc inst (some ("acl/" ++ pyReplace s "/" "_")),
        pyJoin ',' (setAdd [d1] d2))])
      (consulKey svc inst (some ("acl/" ++ pyReplace s "/" "_")))
      = [(consulKey svc inst (some ("acl/" ++ pyReplace s "/" "_")),
          pyJoin ',' (setAdd [d1] d2))] := by
    rw [kvGetRecurse_append, hrecK, kvGetRecurse_single_self]
    rfl
  have hfind2 : find_acl_network svc
      (st ++ [(consulKey svc inst (some ("acl/" ++ pyReplace s "/" "_")),
        pyJoin ',' (setAdd [d1] d2))]) inst (some s)
      = [(some s, pySplit ',' (pyJoin ',' (setAdd [d1] d2)))] := by
    simp only [find_acl_network]
    rw [hkey, hrec2]
    simp only [List.map_cons, List.map_nil]
    rw [lastSeg_acl_key svc inst (pyReplace s "/" "_") (slash_not_mem_encode s)]
    rw [normalize_acl_src_decode h0 h1]
  rw [hst1, hst2]
  unfold acl_find_summary
  rw [hfind2]
  simp only [List.map_cons, List.map_nil]
  by_cases hd : d2 ∈ ([d1] : List String)
  · have hdd : d2 = d1 := by simpa using hd
    subst hdd
    rw [show setAdd [d2] d2 = [d2] from by simp [setAdd]]
    rw [pyJoin_single, pySplit_no_comma hc1]
    simp
  · have hne : ¬ d2 = d1 := by simpa using hd
    rw [show setAdd [d1] d2 = [d1, d2] from by simp [setAdd, hne]]
    rw [pyJoin_pair, pySplit_pair hc1 hc2]
    simp

/-- C7 witness: two destinations stored under the canonical CIDR source. -/
theorem acl_store_accumulates_witness :
    acl_find_summary "rpaas"
        (store_acl_network "rpaas" (store_acl_network "rpaas" [] "i"
          "10.0.0.1/32" "192.168.0.0/24") "i" "10.0.0.1/32" "192.168.1.0/24") "i"
        "10.0.0.1/32"
      = [(some "10.0.0.1/32", {"192.168.0.0/24", "192.168.1.0/24"})] :=
  acl_store_accumulates "rpaas" [] "i" "10.0.0.1/32" "192.168.0.0/24" "192.168.1.0/24"
    (by decide) (by decide) (by decide) (by decide) rfl

/-- C7 counterexample: for a source containing an underscore the stored key
is decoded to a slash-bearing path, and `find_acl_network` reports a
different source (the last path segment), not the original one. -/
theorem acl_store_underscore_source_mangled :
    find_acl_network "rpaas" [] "i" (some "a_b") = [] ∧
    find_acl_network "rpaas"
        (store_acl_network "rpaas" (store_acl_network "rpaas" [] "i" "a_b" "d1")
          "i" "a_b" "d2") "i" (some "a_b")
      = [(some "b", ["d1", "d2"])] ∧
    (some "b" : Option String) ≠ some "a_b" := by
  refine ⟨rfl, by decide, by decide⟩

/-! ## C3: content framing round trip -/

/-- C3 (amended): `unframe(frame(c, l), l) = strip(c)` holds for every content
`c` and label `l` such that the text following the begin sentinel in the
framed output (the stripped content, a newline, and the end sentinel)
contains no occurrence of the begin sentinel, and no occurrence of the end
sentinel starts before the final one.  (Without these provisos the
`str.replace`-based unframing also deletes sentinel text occurring inside
the content, so the round trip fails — see the counterexample.) -/
theorem frame_unframe (c l : String)
    (h1 : containsPat (stripChars c.data ++ '\n' :: (endBlock l).data)
      (beginBlock l).data = false)
    (h2 : occursBefore (stripChars c.data ++ ['\n']) (endBlock l).data = false) :
    set_header_footer (some (set_header_footer (some c) l false)) l true = pyStrip c := by
  by_cases hc : c = ""
  · subst hc
    have hframe : set_header_footer (some "") l false = beginBlock l ++ endBlock l := rfl
    rw [hframe, unframe_empty_frame l]
    rfl
  · have hframe : set_header_footer (some c) l false
        = beginBlock l ++ pyStrip c ++ "\n" ++ endBlock l := by
      show (if c = "" then beginBlock l ++ endBlock l
        else beginBlock l ++ pyStrip c ++ "\n" ++ endBlock l) = _
      rw [if_neg hc]
    rw [hframe]
    show pyStrip (pyReplace (pyReplace
      (Option.getD (some (beginBlock l ++ pyStrip c ++ "\n" ++ endBlock l)) "")
      (beginBlock l) "") (endBlock l) "") = pyStrip c
    rw [Option.getD_some]
    have hx1 : pyReplace (beginBlock l ++ pyStrip c ++ "\n" ++ endBlock l) (beginBlock l) ""
        = (⟨stripChars c.data ++ '\n' :: (endBlock l).data⟩ : String) := by
      unfold pyReplace
      congr 1
      rw [strData_append, strData_append, strData_append]
      rw [show (pyStrip c).data = stripChars c.data from rfl]
      rw [show ("\n" : String).data = ['\n'] from rfl]
      rw [show ("" : String).data = ([] : List Char) from rfl]
      rw [List.append_assoc, List.append_assoc]
      rw [show (['\n'] : List Char) ++ (endBlock l).data = '\n' :: (endBlock l).data from rfl]
      rw [replaceAll_prefixMatch _ _ (beginBlock_data_ne_nil l)]
      rw [replaceAll_not_contains _ h1]
      rfl
    rw [hx1]
    have hx2 : pyReplace (⟨stripChars c.data ++ '\n' :: (endBlock l).data⟩ : String)
        (endBlock l) "" = (⟨stripChars c.data ++ ['\n']⟩ : String) := by
      unfold pyReplace
      congr 1
      rw [show ((⟨stripChars c.data ++ '\n' :: (endBlock l).data⟩ : String)).data
        = stripChars c.data ++ '\n' :: (endBlock l).data from rfl]
      rw [show ("" : String).data = ([] : List Char) from rfl]
      have hshape : stripChars c.data ++ '\n' :: (endBlock l).data
          = (stripChars c.data ++ ['\n']) ++ (endBlock l).data := by
        rw [List.append_assoc]
        rfl
      rw [hshape]
      rw [replaceAll_append_end _ (endBlock_data_ne_nil l) h2]
      rw [List.append_nil]
    rw [hx2]
    unfold pyStrip
    congr 1
    exact stripChars_append_newline c.data

/-- C3 witness: plain content and the `http` label. -/
theorem frame_unframe_witness :
    set_header_footer (some (set_header_footer (some "foo") "http" false)) "http" true
      = pyStrip "foo" :=
  frame_unframe "foo" "http" (by decide) (by decide)

/-- C3 counterexample: content equal to the begin sentinel line itself is
destroyed by unframing, so `unframe(frame(c, l), l) ≠ strip(c)` there. -/
theorem frame_unframe_fails_on_sentinel_content :
    set_header_footer (some (set_header_footer
        (some "## Begin custom RpaaS b block ##") "b" false)) "b" true = "" ∧
      pyStrip "## Begin custom RpaaS b block ##" ≠ "" := by
  refine ⟨by decide, by decide⟩

end Rpaas
